import Mathlib

/-!
Verification of kinpy's SDF chain builder (src/kinpy/sdf.py).

The file shallowly embeds the data model and the three operations of the
module: visual/geometry normalization (`_convert_visuals` together with
`_convert_transform`), the recursive frame-tree construction
(`_build_chain_recurse`) and the top-level builder with its pairwise
root-discovery scan (`build_chain_from_sdf`).  XML parsing is an external
collaborator per the design document, so the builder is embedded over the
already-parsed in-memory model (a link map plus an ordered joint list).
Python's general recursion is embedded with an explicit fuel argument;
exceptions (dict `KeyError`, the unbound `root_link` name) become
constructors of an explicit error type returned through `Except`.
-/

namespace kinpy

/-- Modelled from the spec: kinpy's `transform.Transform` class is not part of
src/; the design document describes it as a rigid pose (rotation plus
translation) with the identity as default constructor value, composition
written `a * b`, and an `inverse` operation.  We model transform values as the
free algebra over exactly these operations (plus the `np.deg2rad` rotation
construction used for cylinder visuals), so equality of transform values is
equality of the transform expressions the code builds. -/
inductive Transform where
  /-- `Transform(rot=r, pos=p)` -/
  | mk (rot : List ℚ) (pos : List ℚ)
  /-- `Transform(rot=np.deg2rad(degs))` with default position -/
  | rotDeg2Rad (degs : List ℚ)
  /-- `Transform()`: the identity/default transform -/
  | ident
  /-- `a * b` -/
  | comp (a b : Transform)
  /-- `a.inverse()` -/
  | inv (a : Transform)
deriving DecidableEq, Repr, Inhabited

/-- Geometry record variants of the parsed model: `Mesh`, `Cylinder`, `Box`,
`Sphere`, or any unrecognized geometry class (the `else` branch of the
`isinstance` chain in `_convert_visuals`). -/
inductive Geometry where
  | mesh (filename : String)
  | cylinder (radius length : ℚ)
  | box (size : List ℚ)
  | sphere (radius : ℚ)
  | other (kind : String)
deriving DecidableEq, Repr, Inhabited

/-- One visual entry of a parsed link: a nullable local pose (seven numbers in
the source's convention, position then rotation) and a geometry record. -/
structure VisualRecord where
  pose : Option (List ℚ)
  geometry : Geometry
deriving DecidableEq, Repr, Inhabited

/-- The value assigned to `g_param` in `_convert_visuals`: a filename, a
(radius, length) pair, a size vector, a scalar radius, or Python `None`. -/
inductive GParam where
  | filename (s : String)
  | radiusLength (r l : ℚ)
  | size (s : List ℚ)
  | radius (r : ℚ)
  | none
deriving DecidableEq, Repr, Inhabited

/-- Modelled from the spec: `frame.Visual` is not part of src/; per the design
document it is the normalized output triple (transform, shape-kind tag, shape
parameters).  `geom_type` is the `g_type` string or Python `None`. -/
structure Visual where
  offset : Transform
  geom_type : Option String
  geom_param : GParam
deriving DecidableEq, Repr, Inhabited

/-- A parsed link record: name, nullable absolute pose, visual entries. -/
structure LinkRecord where
  name : String
  pose : Option (List ℚ)
  visuals : List VisualRecord
deriving DecidableEq, Repr, Inhabited

/-- A parsed joint record: name, type tag, parent link name, child link name,
axis vector (the `xyz` field of the axis in the source). -/
structure JointRecord where
  name : String
  type : String
  parent : String
  child : String
  axis : List ℚ
deriving DecidableEq, Repr, Inhabited

/-- Modelled from the spec: `frame.Joint` is not part of src/; per the design
document it carries a nullable name (null for the synthetic root joint), an
offset transform, and a type tag and axis which are defaulted for the root
joint (modelled as `none`) and set explicitly for every recursively built
joint. -/
structure Joint where
  name : Option String
  offset : Transform
  joint_type : Option String
  axis : Option (List ℚ)
deriving DecidableEq, Repr, Inhabited

/-- Modelled from the spec: `frame.Link` is not part of src/; per the design
document it is a name, an offset transform (always the identity in this
module) and a list of normalized visuals. -/
structure Link where
  name : String
  offset : Transform
  visuals : List Visual
deriving DecidableEq, Repr, Inhabited

/-- Modelled from the spec: `frame.Frame` is not part of src/; per the design
document a frame is a name, one joint, one link and an ordered list of child
frames (an exclusively owned tree). -/
inductive Frame where
  | mk (name : String) (joint : Joint) (link : Link) (children : List Frame)

/-- Name of a frame. -/
def Frame.name : Frame → String
  | .mk n _ _ _ => n

/-- Joint of a frame. -/
def Frame.joint : Frame → Joint
  | .mk _ j _ _ => j

/-- Link of a frame. -/
def Frame.link : Frame → Link
  | .mk _ _ l _ => l

/-- Children of a frame. -/
def Frame.children : Frame → List Frame
  | .mk _ _ _ cs => cs

/-- Modelled from the spec: `chain.Chain` is not part of src/; it wraps
exactly one root frame. -/
structure Chain where
  root_frame : Frame

/-- Failure modes of the embedded builder.  In the Python source,
`linkNotFound` and `jointTypeNotFound` are both `KeyError`s (raised by the
link-map dictionary and the `JOINT_TYPE_MAP` dictionary respectively), and
`noRoot` is the `NameError` raised at the use of `root_link` when the
selection loop never executed its `break`.  `outOfFuel` is an artifact of the
fuel embedding of general recursion: a run of the Python code fails to
terminate exactly when the embedded run yields `outOfFuel` for every fuel. -/
inductive BuildError where
  | linkNotFound (name : String)
  | jointTypeNotFound (type : String)
  | noRoot
  | outOfFuel
deriving DecidableEq, Repr

/-- The link map `robot.link_map`, embedded as an association list from link
name to link record (insertion order preserved, as in a Python dict). -/
abbrev LMap := List (String × LinkRecord)

/-- Dictionary lookup `lmap[key]`; raises `KeyError(key)` when absent. -/
def lookupL (lmap : LMap) (key : String) : Except BuildError LinkRecord :=
  match lmap.find? (fun p => p.1 == key) with
  | some p => .ok p.2
  | none => .error (.linkNotFound key)

/-- The module-level dictionary
`JOINT_TYPE_MAP = ..."revolute": "revolute", "prismatic": "prismatic", "fixed": "fixed"...`. -/
def JOINT_TYPE_MAP : List (String × String) :=
  [("revolute", "revolute"), ("prismatic", "prismatic"), ("fixed", "fixed")]

/-- Dictionary lookup `JOINT_TYPE_MAP[t]`; raises `KeyError(t)` when absent. -/
def lookupJointType (t : String) : Except BuildError String :=
  match JOINT_TYPE_MAP.find? (fun p => p.1 == t) with
  | some p => .ok p.2
  | none => .error (.jointTypeNotFound t)

/-- A real SDF `link_map` is keyed by the link's own name; this is the
corresponding well-formedness of an embedded link map. -/
def lmapConsistent (lmap : LMap) : Prop :=
  ∀ p ∈ lmap, p.2.name = p.1

/-- Embedding of `_convert_transform`: a null pose becomes the default
(identity) transform, otherwise `Transform(rot=pose[3:], pos=pose[:3])`. -/
def convert_transform (pose : Option (List ℚ)) : Transform :=
  match pose with
  | none => Transform.ident
  | some p => Transform.mk (p.drop 3) (p.take 3)

/-- Embedding of `_convert_visuals`: each entry's transform is the converted
local pose, with a further `Transform(rot=np.deg2rad([90.0, 0.0, 0.0]))`
composed on the right for cylinders; the shape tag / parameter pair follows
the `isinstance` dispatch, with the `else` branch yielding `None`/`None`. -/
def convert_visuals : List VisualRecord → List Visual
  | [] => []
  | v :: rest =>
    let v_tf := convert_transform v.pose
    (match v.geometry with
      | .mesh filename => Visual.mk v_tf (some "mesh") (.filename filename)
      | .cylinder radius length =>
          Visual.mk (Transform.comp v_tf (Transform.rotDeg2Rad [90, 0, 0]))
            (some "cylinder") (.radiusLength radius length)
      | .box size => Visual.mk v_tf (some "box") (.size size)
      | .sphere radius => Visual.mk v_tf (some "sphere") (.radius radius)
      | .other _ => Visual.mk v_tf none .none)
      :: convert_visuals rest

/-- One level of `_build_chain_recurse`: the `for j in joints` loop at the
frame whose link is named `rname`.  `descend` is the recursive call used for
the grandchildren of a matched joint (`_build_chain_recurse(child_frame, lmap,
joints)`, which reads only `child_frame.link.name` from the frame under
construction).  Bind order follows Python's evaluation order: parent link
lookup, child link lookup, transform conversion, joint-type lookup. -/
def build_chain_recurse_loop (lmap : LMap)
    (descend : String → Except BuildError (List Frame)) (rname : String) :
    List JointRecord → Except BuildError (List Frame)
  | [] => .ok []
  | j :: rest =>
    if j.parent == rname then do
      let link_p ← lookupL lmap j.parent
      let link_c ← lookupL lmap j.child
      let t_p := convert_transform link_p.pose
      let t_c := convert_transform link_c.pose
      let jt ← lookupJointType j.type
      let child_joint : Joint := ⟨some j.name, Transform.comp (Transform.inv t_p) t_c, some jt, some j.axis⟩
      let child_link : Link := ⟨link_c.name, Transform.ident, convert_visuals link_c.visuals⟩
      let grandchildren ← descend link_c.name
      let children ← build_chain_recurse_loop lmap descend rname rest
      .ok (Frame.mk (j.child ++ "_frame") child_joint child_link grandchildren :: children)
    else
      build_chain_recurse_loop lmap descend rname rest

/-- Embedding of `_build_chain_recurse(root_frame, lmap, joints)` with
explicit fuel.  The string argument is `root_frame.link.name` (the only field
of the frame under construction the Python function reads); the joint list
scanned at every level is the full `joints` list of the robot. -/
def build_chain_recurse (lmap : LMap) (joints : List JointRecord) :
    Nat → String → Except BuildError (List Frame)
  | 0, _ => .error .outOfFuel
  | fuel + 1, rname =>
      build_chain_recurse_loop lmap (build_chain_recurse lmap joints fuel) rname joints

/-- The update performed by one iteration of the pairwise scan in
`build_chain_from_sdf` for the pair `(i, j)`:

`if joints[i].parent == joints[j].child: has_root[i] = False`
`elif joints[j].parent == joints[i].child: has_root[j] = False`. -/
def updatePair (joints : List JointRecord) (hr : List Bool) (i j : Nat) : List Bool :=
  if (joints.getD i default).parent == (joints.getD j default).child then
    hr.set i false
  else if (joints.getD j default).parent == (joints.getD i default).child then
    hr.set j false
  else
    hr

/-- The `has_root` array after the full nested scan
`for i in range(n_joints): for j in range(i + 1, n_joints): ...`,
starting from `[True] * n_joints`. -/
def computeHasRoot (joints : List JointRecord) : List Bool :=
  (List.range joints.length).foldl
    (fun hr i =>
      (List.range' (i + 1) (joints.length - (i + 1))).foldl
        (fun hr' j => updatePair joints hr' i j) hr)
    (List.replicate joints.length true)

/-- The root selection loop `for i in range(n_joints): if has_root[i]:
root_link = lmap[joints[i].parent]; break`, followed by the use of
`root_link`; when no index is selected, the use raises `NameError`
(`root_link` unbound), embedded as `noRoot`. -/
def discoverRootLink (lmap : LMap) (joints : List JointRecord) :
    Except BuildError LinkRecord :=
  match (List.range joints.length).find?
      (fun i => (computeHasRoot joints).getD i false) with
  | some i => lookupL lmap ((joints.getD i default).parent)
  | none => .error .noRoot

/-- The in-memory robot model that `SDF.from_xml_string` produces: the link
map and the ordered joint list (`robot.link_map`, `robot.joints`).  The XML
parsing itself is an external collaborator per the design document. -/
structure Robot where
  link_map : LMap
  joints : List JointRecord

/-- Embedding of `build_chain_from_sdf` after parsing: root discovery, root
frame construction, recursive expansion, chain wrapping. -/
def build_chain (robot : Robot) (fuel : Nat) : Except BuildError Chain := do
  let lmap := robot.link_map
  let joints := robot.joints
  let root_link ← discoverRootLink lmap joints
  let root_joint : Joint := ⟨none, convert_transform root_link.pose, none, none⟩
  let root_link_out : Link := ⟨root_link.name, Transform.ident, convert_visuals root_link.visuals⟩
  let children ← build_chain_recurse lmap joints fuel root_link.name
  .ok ⟨Frame.mk (root_link.name ++ "_frame") root_joint root_link_out children⟩

/-! Derived notions used to state the claims. -/

mutual

/-- Number of frames in a tree: the frame itself plus all of its reachable
descendants. -/
def frameSize : Frame → Nat
  | .mk _ _ _ cs => 1 + forestSize cs

/-- Number of frames in a forest; `forestSize c.root_frame.children` is the
number of non-root frames reachable from the root of a chain `c`. -/
def forestSize : List Frame → Nat
  | [] => 0
  | f :: fs => frameSize f + forestSize fs

end

/-- The disqualification condition of the scan iteration for the pair
`(i, j)` as it affects index `k`: the first branch sets `has_root[i] = False`
when `joints[i].parent == joints[j].child`, and only when that first test
fails does the `elif` branch set `has_root[j] = False` when
`joints[j].parent == joints[i].child`. -/
def fires (joints : List JointRecord) (i j k : Nat) : Bool :=
  (k == i && ((joints.getD i default).parent == (joints.getD j default).child)) ||
    (k == j && !((joints.getD i default).parent == (joints.getD j default).child) &&
      ((joints.getD j default).parent == (joints.getD i default).child))

/-- Declarative root eligibility of joint `k` (the amended form of the claim):
no later joint `j > k` has `joints[k].parent = joints[j].child`, and no
earlier joint `i < k` disqualifies `k` through the `elif` branch, which fires
only when the first test for the pair `(i, k)` failed. -/
def declHasRoot (joints : List JointRecord) (k : Nat) : Prop :=
  (∀ j, j < joints.length → k < j →
      (joints.getD k default).parent ≠ (joints.getD j default).child) ∧
  (∀ i, i < k →
      ((joints.getD i default).parent = (joints.getD k default).child ∨
        (joints.getD k default).parent ≠ (joints.getD i default).child))

instance (joints : List JointRecord) (k : Nat) : Decidable (declHasRoot joints k) := by
  unfold declHasRoot
  infer_instance

/-- Root discovery as described by the amended claim: the root link is the
parent link of the first joint, in input order, that remains root-eligible in
the declarative sense; when none remains, the discovery fails. -/
def declDiscoverRootLink (lmap : LMap) (joints : List JointRecord) :
    Except BuildError LinkRecord :=
  match (List.range joints.length).find? (fun k => decide (declHasRoot joints k)) with
  | some k => lookupL lmap ((joints.getD k default).parent)
  | none => .error .noRoot

/-- The scan update for the pair `(i, j)` as the original claim words it:
both symmetric checks are performed independently, so both `i` and `j` can be
disqualified by a single pair. -/
def claimUpdatePair (joints : List JointRecord) (hr : List Bool) (i j : Nat) : List Bool :=
  let hr1 :=
    if (joints.getD i default).parent == (joints.getD j default).child then
      hr.set i false
    else hr
  if (joints.getD j default).parent == (joints.getD i default).child then
    hr1.set j false
  else hr1

/-- The `has_root` array the original claim describes, with both symmetric
checks performed for every pair. -/
def claimComputeHasRoot (joints : List JointRecord) : List Bool :=
  (List.range joints.length).foldl
    (fun hr i =>
      (List.range' (i + 1) (joints.length - (i + 1))).foldl
        (fun hr' j => claimUpdatePair joints hr' i j) hr)
    (List.replicate joints.length true)

/-- Root discovery as the original claim describes it. -/
def claimDiscoverRootLink (lmap : LMap) (joints : List JointRecord) :
    Except BuildError LinkRecord :=
  match (List.range joints.length).find?
      (fun i => (claimComputeHasRoot joints).getD i false) with
  | some i => lookupL lmap ((joints.getD i default).parent)
  | none => .error .noRoot

/-- A joint set is a well-formed single-rooted tree when, seen from the root
link name, the full multiset of joints is partitioned by the recursive
expansion: the joints whose parent is the current link name, plus, for each of
them, a sub-multiset consumed from its child, and nothing is left over or
used twice.  `Consumes joints L ↑joints` thus says that expansion from `L`
reaches every joint exactly once. -/
inductive Consumes (joints : List JointRecord) : String → Multiset JointRecord → Prop where
  | mk (L : String) (g : JointRecord → Multiset JointRecord)
      (h : ∀ j ∈ joints.filter (fun j => j.parent == L), Consumes joints j.child (g j)) :
      Consumes joints L
        (↑(joints.filter (fun j => j.parent == L)) +
          ((joints.filter (fun j => j.parent == L)).map g).sum)

/-! Basic lemmas. -/

theorem ebind_ok {ε α β : Type} (a : α) (f : α → Except ε β) :
    (Except.ok a >>= f) = f a := rfl

theorem ebind_error {ε α β : Type} (e : ε) (f : α → Except ε β) :
    ((Except.error e : Except ε α) >>= f) = Except.error e := rfl

theorem convert_visuals_length (vs : List VisualRecord) :
    (convert_visuals vs).length = vs.length := by
  induction vs with
  | nil => rfl
  | cons v rest ih => simp [convert_visuals, ih]

theorem convert_visuals_getD_succ (v : VisualRecord) (rest : List VisualRecord) (n : Nat) :
    (convert_visuals (v :: rest)).getD (n + 1) default =
      (convert_visuals rest).getD n default := by
  simp [convert_visuals]

/-- C5: for every visual entry, a cylinder shape yields a transform equal to
the converted local pose composed with the extra 90-degrees-about-X rotation
(`Transform(rot=np.deg2rad([90.0, 0.0, 0.0]))`), while mesh, box and sphere
shapes yield exactly the converted local pose, unmodified. -/
theorem C5_visual_transform (vs : List VisualRecord) (i : Nat) (h : i < vs.length) :
    (∀ r l, (vs.getD i default).geometry = Geometry.cylinder r l →
        ((convert_visuals vs).getD i default).offset =
          Transform.comp (convert_transform (vs.getD i default).pose)
            (Transform.rotDeg2Rad [90, 0, 0])) ∧
    (∀ fn, (vs.getD i default).geometry = Geometry.mesh fn →
        ((convert_visuals vs).getD i default).offset =
          convert_transform (vs.getD i default).pose) ∧
    (∀ sz, (vs.getD i default).geometry = Geometry.box sz →
        ((convert_visuals vs).getD i default).offset =
          convert_transform (vs.getD i default).pose) ∧
    (∀ r, (vs.getD i default).geometry = Geometry.sphere r →
        ((convert_visuals vs).getD i default).offset =
          convert_transform (vs.getD i default).pose) := by
  induction vs generalizing i with
  | nil => exact absurd h (by simp)
  | cons v rest ih =>
    cases i with
    | zero =>
      refine ⟨fun r l hg => ?_, fun fn hg => ?_, fun sz hg => ?_, fun r hg => ?_⟩ <;>
        simp only [List.getD_cons_zero] at hg ⊢ <;>
        simp [convert_visuals, hg]
    | succ n =>
      have hn : n < rest.length := by simpa using h
      simpa only [List.getD_cons_succ, convert_visuals_getD_succ] using ih n hn

/-- C5 witness at a concrete cylinder entry and a concrete box entry. -/
theorem C5_visual_transform_witness :
    ((convert_visuals [⟨some [1, 2, 3, 4, 5, 6], Geometry.cylinder 2 5⟩]).getD 0 default).offset =
      Transform.comp (convert_transform (some [1, 2, 3, 4, 5, 6]))
        (Transform.rotDeg2Rad [90, 0, 0]) ∧
    ((convert_visuals [⟨some [1, 2, 3, 4, 5, 6], Geometry.box [1, 1, 1]⟩]).getD 0 default).offset =
      convert_transform (some [1, 2, 3, 4, 5, 6]) := by
  constructor
  · exact (C5_visual_transform [⟨some [1, 2, 3, 4, 5, 6], Geometry.cylinder 2 5⟩] 0
      (by decide)).1 2 5 rfl
  · exact (C5_visual_transform [⟨some [1, 2, 3, 4, 5, 6], Geometry.box [1, 1, 1]⟩] 0
      (by decide)).2.2.1 [1, 1, 1] rfl

/-- C6: a visual entry whose shape is not one of mesh, cylinder, box or
sphere is normalized without error: every entry still yields an output
Visual (geometry normalization is total, one output per input entry), and the
output's shape tag and shape parameter are the explicit none/unknown
markers. -/
theorem C6_unknown_geometry (vs : List VisualRecord) (i : Nat) (h : i < vs.length)
    (kind : String) (hg : (vs.getD i default).geometry = Geometry.other kind) :
    ((convert_visuals vs).getD i default).geom_type = none ∧
    ((convert_visuals vs).getD i default).geom_param = GParam.none ∧
    (convert_visuals vs).length = vs.length := by
  refine ⟨?_, ?_, convert_visuals_length vs⟩ <;>
  · induction vs generalizing i with
    | nil => exact absurd h (by simp)
    | cons v rest ih =>
      cases i with
      | zero =>
        simp only [List.getD_cons_zero] at hg
        simp [convert_visuals, hg]
      | succ n =>
        have hn : n < rest.length := by simpa using h
        simp only [List.getD_cons_succ] at hg
        simpa only [convert_visuals_getD_succ] using ih n hn hg

/-- C6 witness at a concrete unrecognized shape. -/
theorem C6_unknown_geometry_witness :
    ((convert_visuals [⟨none, Geometry.other "plane"⟩]).getD 0 default).geom_type = none ∧
    ((convert_visuals [⟨none, Geometry.other "plane"⟩]).getD 0 default).geom_param = GParam.none ∧
    (convert_visuals [⟨none, Geometry.other "plane"⟩]).length =
      ([⟨none, Geometry.other "plane"⟩] : List VisualRecord).length :=
  C6_unknown_geometry [⟨none, Geometry.other "plane"⟩] 0 (by decide) "plane" rfl

/-- Inversion of one level of the recursive expansion: every frame produced
by a successful run of the joint loop comes from a joint of the scanned list
whose parent matches the current link name, and is built exactly as the loop
body builds it. -/
theorem loop_ok_frames (lmap : LMap) (descend : String → Except BuildError (List Frame))
    (rname : String) :
    ∀ (js : List JointRecord) (frames : List Frame),
      build_chain_recurse_loop lmap descend rname js = .ok frames →
      ∀ f ∈ frames, ∃ j ∈ js, j.parent = rname ∧
        ∃ lp lc jt grand, lookupL lmap j.parent = .ok lp ∧
          lookupL lmap j.child = .ok lc ∧
          lookupJointType j.type = .ok jt ∧
          descend lc.name = .ok grand ∧
          f = Frame.mk (j.child ++ "_frame")
                ⟨some j.name,
                  Transform.comp (Transform.inv (convert_transform lp.pose))
                    (convert_transform lc.pose),
                  some jt, some j.axis⟩
                ⟨lc.name, Transform.ident, convert_visuals lc.visuals⟩ grand := by
  intro js
  induction js with
  | nil =>
    intro frames hok
    simp only [build_chain_recurse_loop] at hok
    obtain rfl : ([] : List Frame) = frames := by simpa using hok
    simp
  | cons j rest ih =>
    intro frames hok
    simp only [build_chain_recurse_loop] at hok
    cases hcond : j.parent == rname with
    | false =>
      rw [hcond] at hok
      simp only [Bool.false_eq_true, if_false] at hok
      intro f hf
      obtain ⟨j', hj', rest'⟩ := ih frames hok f hf
      exact ⟨j', List.mem_cons_of_mem _ hj', rest'⟩
    | true =>
      rw [hcond] at hok
      simp only [if_true] at hok
      cases hp : lookupL lmap j.parent with
      | error e => rw [hp, ebind_error] at hok; exact absurd hok (by simp)
      | ok lp =>
        rw [hp, ebind_ok] at hok
        cases hc : lookupL lmap j.child with
        | error e => rw [hc, ebind_error] at hok; exact absurd hok (by simp)
        | ok lc =>
          rw [hc, ebind_ok] at hok
          cases ht : lookupJointType j.type with
          | error e => rw [ht, ebind_error] at hok; exact absurd hok (by simp)
          | ok jt =>
            rw [ht, ebind_ok] at hok
            cases hg : descend lc.name with
            | error e => rw [hg, ebind_error] at hok; exact absurd hok (by simp)
            | ok grand =>
              rw [hg, ebind_ok] at hok
              cases hr : build_chain_recurse_loop lmap descend rname rest with
              | error e => rw [hr, ebind_error] at hok; exact absurd hok (by simp)
              | ok children =>
                rw [hr, ebind_ok] at hok
                obtain rfl : _ = frames := by simpa using hok
                intro f hf
                rcases List.mem_cons.mp hf with rfl | hf'
                · exact ⟨j, List.mem_cons_self _ _, by simpa using hcond,
                    lp, lc, jt, grand, hp, hc, ht, hg, rfl⟩
                · obtain ⟨j', hj', rest'⟩ := ih children hr f hf'
                  exact ⟨j', List.mem_cons_of_mem _ hj', rest'⟩

/-- Companion of `loop_ok_frames`: in a successful run of the joint loop,
every scanned joint whose parent matches the current link name did pass all
its lookups and did contribute its frame to the result. -/
theorem loop_ok_joints (lmap : LMap) (descend : String → Except BuildError (List Frame))
    (rname : String) :
    ∀ (js : List JointRecord) (frames : List Frame),
      build_chain_recurse_loop lmap descend rname js = .ok frames →
      ∀ j ∈ js, j.parent = rname →
        ∃ lp lc jt grand, lookupL lmap j.parent = .ok lp ∧
          lookupL lmap j.child = .ok lc ∧
          lookupJointType j.type = .ok jt ∧
          descend lc.name = .ok grand ∧
          Frame.mk (j.child ++ "_frame")
              ⟨some j.name,
                Transform.comp (Transform.inv (convert_transform lp.pose))
                  (convert_transform lc.pose),
                some jt, some j.axis⟩
              ⟨lc.name, Transform.ident, convert_visuals lc.visuals⟩ grand ∈ frames := by
  intro js
  induction js with
  | nil => intro frames _ j hj; exact absurd hj (by simp)
  | cons j0 rest ih =>
    intro frames hok j hj hpar
    simp only [build_chain_recurse_loop] at hok
    cases hcond : j0.parent == rname with
    | false =>
      rw [hcond] at hok
      simp only [Bool.false_eq_true, if_false] at hok
      rcases List.mem_cons.mp hj with rfl | hj'
      · exact absurd (by simp [hpar] : (j.parent == rname) = true) (by simp [hcond])
      · exact ih frames hok j hj' hpar
    | true =>
      rw [hcond] at hok
      simp only [if_true] at hok
      cases hp : lookupL lmap j0.parent with
      | error e => rw [hp, ebind_error] at hok; exact absurd hok (by simp)
      | ok lp =>
        rw [hp, ebind_ok] at hok
        cases hc : lookupL lmap j0.child with
        | error e => rw [hc, ebind_error] at hok; exact absurd hok (by simp)
        | ok lc =>
          rw [hc, ebind_ok] at hok
          cases ht : lookupJointType j0.type with
          | error e => rw [ht, ebind_error] at hok; exact absurd hok (by simp)
          | ok jt =>
            rw [ht, ebind_ok] at hok
            cases hg : descend lc.name with
            | error e => rw [hg, ebind_error] at hok; exact absurd hok (by simp)
            | ok grand =>
              rw [hg, ebind_ok] at hok
              cases hr : build_chain_recurse_loop lmap descend rname rest with
              | error e => rw [hr, ebind_error] at hok; exact absurd hok (by simp)
              | ok children =>
                rw [hr, ebind_ok] at hok
                obtain rfl : _ = frames := by simpa using hok
                rcases List.mem_cons.mp hj with rfl | hj'
                · exact ⟨lp, lc, jt, grand, hp, hc, ht, hg, List.mem_cons_self _ _⟩
                · obtain ⟨lp', lc', jt', grand', h1, h2, h3, h4, h5⟩ :=
                    ih children hr j hj' hpar
                  exact ⟨lp', lc', jt', grand', h1, h2, h3, h4,
                    List.mem_cons_of_mem _ h5⟩

/-- C2: every joint expanded during recursion (a joint whose parent equals
the current frame's link name) yields a child frame whose joint offset is
`convert(parent_link.pose).inverse() * convert(child_link.pose)`, where
`convert` maps a null pose to the identity transform. -/
theorem C2_joint_offset (lmap : LMap) (descend : String → Except BuildError (List Frame))
    (rname : String) (js : List JointRecord) (frames : List Frame)
    (hok : build_chain_recurse_loop lmap descend rname js = .ok frames) :
    (∀ f ∈ frames, ∃ j ∈ js, j.parent = rname ∧
        ∃ lp lc, lookupL lmap j.parent = .ok lp ∧ lookupL lmap j.child = .ok lc ∧
          f.name = j.child ++ "_frame" ∧ f.joint.name = some j.name ∧
          f.joint.offset =
            Transform.comp (Transform.inv (convert_transform lp.pose))
              (convert_transform lc.pose)) ∧
    convert_transform none = Transform.ident := by
  refine ⟨fun f hf => ?_, rfl⟩
  obtain ⟨j, hj, hpar, lp, lc, jt, grand, hp, hc, _, _, rfl⟩ :=
    loop_ok_frames lmap descend rname js frames hok f hf
  exact ⟨j, hj, hpar, lp, lc, hp, hc, rfl, rfl, rfl⟩

/-- C2 witness: a single joint from link A to link B, both with concrete
absolute poses. -/
theorem C2_joint_offset_witness :
    (∀ f ∈ [Frame.mk "B_frame"
          ⟨some "j1",
            Transform.comp (Transform.inv (convert_transform (some [1, 0, 0, 0, 0, 0])))
              (convert_transform (some [0, 2, 0, 0, 0, 0])),
            some "revolute", some [0, 0, 1]⟩
          ⟨"B", Transform.ident, []⟩ []],
      ∃ j ∈ [(⟨"j1", "revolute", "A", "B", [0, 0, 1]⟩ : JointRecord)], j.parent = "A" ∧
        ∃ lp lc, lookupL [("A", ⟨"A", some [1, 0, 0, 0, 0, 0], []⟩),
            ("B", ⟨"B", some [0, 2, 0, 0, 0, 0], []⟩)] j.parent = .ok lp ∧
          lookupL [("A", ⟨"A", some [1, 0, 0, 0, 0, 0], []⟩),
            ("B", ⟨"B", some [0, 2, 0, 0, 0, 0], []⟩)] j.child = .ok lc ∧
          f.name = j.child ++ "_frame" ∧ f.joint.name = some j.name ∧
          f.joint.offset =
            Transform.comp (Transform.inv (convert_transform lp.pose))
              (convert_transform lc.pose)) ∧
    convert_transform none = Transform.ident :=
  C2_joint_offset [("A", ⟨"A", some [1, 0, 0, 0, 0, 0], []⟩),
      ("B", ⟨"B", some [0, 2, 0, 0, 0, 0], []⟩)]
    (fun _ => .ok []) "A" [⟨"j1", "revolute", "A", "B", [0, 0, 1]⟩] _ rfl

/-- C7: a joint expanded during recursion whose type tag is not one of
revolute, prismatic or fixed makes the build fail with the lookup error for
that tag (never a silent degradation), while a successful run maps every
expanded joint's type tag through the fixed `JOINT_TYPE_MAP` lookup and
records the mapped tag on the produced frame's joint. -/
theorem C7_joint_type :
    (∀ (lmap : LMap) (descend : String → Except BuildError (List Frame))
        (rname : String) (j : JointRecord) (rest : List JointRecord) (lp lc : LinkRecord),
      j.parent = rname →
      lookupL lmap j.parent = .ok lp →
      lookupL lmap j.child = .ok lc →
      j.type ≠ "revolute" → j.type ≠ "prismatic" → j.type ≠ "fixed" →
      build_chain_recurse_loop lmap descend rname (j :: rest) =
        .error (.jointTypeNotFound j.type)) ∧
    (∀ (lmap : LMap) (descend : String → Except BuildError (List Frame))
        (rname : String) (js : List JointRecord) (frames : List Frame),
      build_chain_recurse_loop lmap descend rname js = .ok frames →
      ∀ j ∈ js, j.parent = rname →
        ∃ m, lookupJointType j.type = .ok m ∧
          ∃ f ∈ frames, f.joint.name = some j.name ∧ f.joint.joint_type = some m) := by
  constructor
  · intro lmap descend rname j rest lp lc hpar hp hc h1 h2 h3
    have hjt : lookupJointType j.type = .error (.jointTypeNotFound j.type) := by
      have e1 : (("revolute" : String) == j.type) = false := by
        simpa using fun h => h1 h.symm
      have e2 : (("prismatic" : String) == j.type) = false := by
        simpa using fun h => h2 h.symm
      have e3 : (("fixed" : String) == j.type) = false := by
        simpa using fun h => h3 h.symm
      simp [lookupJointType, JOINT_TYPE_MAP, List.find?, e1, e2, e3]
    have hcond : (j.parent == rname) = true := by simp [hpar]
    simp only [build_chain_recurse_loop, hcond, if_true]
    rw [hp, ebind_ok, hc, ebind_ok, hjt, ebind_error]
  · intro lmap descend rname js frames hok j hj hpar
    obtain ⟨lp, lc, jt, grand, _, _, ht, _, hmem⟩ :=
      loop_ok_joints lmap descend rname js frames hok j hj hpar
    exact ⟨jt, ht, _, hmem, rfl, rfl⟩

/-- C7 witness: an unrecognized type tag fails; a revolute joint succeeds and
carries the mapped tag. -/
theorem C7_joint_type_witness :
    build_chain_recurse_loop [("A", ⟨"A", none, []⟩), ("B", ⟨"B", none, []⟩)]
        (fun _ => .ok []) "A" [⟨"j1", "floating", "A", "B", [0, 0, 1]⟩] =
      .error (.jointTypeNotFound "floating") ∧
    (∃ m, lookupJointType "revolute" = .ok m ∧
      ∃ f ∈ [Frame.mk "B_frame"
          ⟨some "j1",
            Transform.comp (Transform.inv (convert_transform none)) (convert_transform none),
            some "revolute", some [0, 0, 1]⟩
          ⟨"B", Transform.ident, []⟩ []],
        f.joint.name = some "j1" ∧ f.joint.joint_type = some m) := by
  constructor
  · exact C7_joint_type.1 [("A", ⟨"A", none, []⟩), ("B", ⟨"B", none, []⟩)]
      (fun _ => .ok []) "A" ⟨"j1", "floating", "A", "B", [0, 0, 1]⟩ []
      ⟨"A", none, []⟩ ⟨"B", none, []⟩ rfl rfl rfl
      (by decide) (by decide) (by decide)
  · exact C7_joint_type.2 [("A", ⟨"A", none, []⟩), ("B", ⟨"B", none, []⟩)]
      (fun _ => .ok []) "A" [⟨"j1", "revolute", "A", "B", [0, 0, 1]⟩] _ rfl
      ⟨"j1", "revolute", "A", "B", [0, 0, 1]⟩ (List.mem_singleton.mpr rfl) rfl

/-- C8: a joint expanded during recursion whose child link name is absent
from the link map makes the loop fail with the lookup error for that name,
and any failure of the recursive expansion propagates through
`build_chain_from_sdf`, which then returns that error and no chain. -/
theorem C8_missing_link :
    (∀ (lmap : LMap) (descend : String → Except BuildError (List Frame))
        (rname : String) (j : JointRecord) (rest : List JointRecord) (lp : LinkRecord),
      j.parent = rname →
      lookupL lmap j.parent = .ok lp →
      lmap.find? (fun p => p.1 == j.child) = none →
      build_chain_recurse_loop lmap descend rname (j :: rest) =
        .error (.linkNotFound j.child)) ∧
    (∀ (robot : Robot) (fuel : Nat) (rl : LinkRecord) (e : BuildError),
      discoverRootLink robot.link_map robot.joints = .ok rl →
      build_chain_recurse robot.link_map robot.joints fuel rl.name = .error e →
      build_chain robot fuel = .error e) := by
  constructor
  · intro lmap descend rname j rest lp hpar hp habsent
    have hc : lookupL lmap j.child = .error (.linkNotFound j.child) := by
      simp [lookupL, habsent]
    have hcond : (j.parent == rname) = true := by simp [hpar]
    simp only [build_chain_recurse_loop, hcond, if_true]
    rw [hp, ebind_ok, hc, ebind_error]
  · intro robot fuel rl e hdisc hrec
    simp only [build_chain] at *
    rw [hdisc, ebind_ok, hrec, ebind_error]

/-- C8 witness: joint j1 references child link B, absent from the link map;
the loop fails with that name, and the whole build propagates the failure. -/
theorem C8_missing_link_witness :
    build_chain_recurse_loop [("A", ⟨"A", none, []⟩)] (fun _ => .ok []) "A"
        [⟨"j1", "revolute", "A", "B", [0, 0, 1]⟩] =
      .error (.linkNotFound "B") ∧
    build_chain ⟨[("A", ⟨"A", none, []⟩)], [⟨"j1", "revolute", "A", "B", [0, 0, 1]⟩]⟩ 3 =
      .error (.linkNotFound "B") := by
  constructor
  · exact C8_missing_link.1 [("A", ⟨"A", none, []⟩)] (fun _ => .ok []) "A"
      ⟨"j1", "revolute", "A", "B", [0, 0, 1]⟩ [] ⟨"A", none, []⟩ rfl rfl rfl
  · exact C8_missing_link.2
      ⟨[("A", ⟨"A", none, []⟩)], [⟨"j1", "revolute", "A", "B", [0, 0, 1]⟩]⟩ 3
      ⟨"A", none, []⟩ (.linkNotFound "B") rfl rfl

/-- C9: on the empty joint list the build fails with the no-root structural
error; more generally, whenever no joint remains root-eligible after the
pairwise scan, the build fails with that error before any frame is built and
no chain is returned. -/
theorem C9_no_root :
    (∀ (lmap : LMap) (fuel : Nat),
      build_chain ⟨lmap, []⟩ fuel = .error .noRoot) ∧
    (∀ (robot : Robot) (fuel : Nat),
      (∀ k, k < robot.joints.length →
        (computeHasRoot robot.joints).getD k false = false) →
      build_chain robot fuel = .error .noRoot) := by
  constructor
  · intro lmap fuel
    rfl
  · intro robot fuel hall
    have hfind : (List.range robot.joints.length).find?
        (fun i => (computeHasRoot robot.joints).getD i false) = none := by
      apply List.find?_eq_none.mpr
      intro x hx
      simp only [List.mem_range] at hx
      simpa using hall x hx
    have hdisc : discoverRootLink robot.link_map robot.joints = .error .noRoot := by
      unfold discoverRootLink
      rw [hfind]
    simp only [build_chain]
    rw [hdisc, ebind_error]

/-- C9 witness: the empty joint list, and a three-cycle in which every joint
is disqualified by the scan. -/
theorem C9_no_root_witness :
    build_chain ⟨[("A", ⟨"A", none, []⟩)], []⟩ 3 = .error .noRoot ∧
    build_chain ⟨[("A", ⟨"A", none, []⟩)],
        [⟨"j1", "revolute", "A", "B", [0, 0, 1]⟩,
         ⟨"j2", "revolute", "B", "C", [0, 0, 1]⟩,
         ⟨"j3", "revolute", "C", "A", [0, 0, 1]⟩]⟩ 3 = .error .noRoot := by
  constructor
  · exact C9_no_root.1 [("A", ⟨"A", none, []⟩)] 3
  · exact C9_no_root.2
      ⟨[("A", ⟨"A", none, []⟩)],
        [⟨"j1", "revolute", "A", "B", [0, 0, 1]⟩,
         ⟨"j2", "revolute", "B", "C", [0, 0, 1]⟩,
         ⟨"j3", "revolute", "C", "A", [0, 0, 1]⟩]⟩ 3
      (by decide)

/-! Characterization of the pairwise root-discovery scan. -/

theorem getD_set_false (l : List Bool) (i k : Nat) :
    (l.set i false).getD k false = (l.getD k false && !(k == i)) := by
  induction l generalizing i k with
  | nil => simp
  | cons b t ih =>
    cases i with
    | zero =>
      cases k with
      | zero => simp
      | succ q => simp
    | succ p =>
      cases k with
      | zero => simp
      | succ q => simpa using ih p q

theorem replicate_getD (n k : Nat) :
    (List.replicate n true).getD k false = decide (k < n) := by
  induction n generalizing k with
  | zero => simp
  | succ m ih =>
    cases k with
    | zero => simp
    | succ q =>
      rw [List.replicate_succ, List.getD_cons_succ, ih q, decide_eq_decide]
      omega

theorem foldl_getD_and_not {α : Type} (f : List Bool → α → List Bool) (c : α → Bool)
    (k : Nat) (hf : ∀ s a, (f s a).getD k false = (s.getD k false && !(c a))) :
    ∀ (l : List α) (s : List Bool),
      (l.foldl f s).getD k false = (s.getD k false && !(l.any c)) := by
  intro l
  induction l with
  | nil => intro s; simp
  | cons a t ih =>
    intro s
    simp only [List.foldl_cons, List.any_cons]
    rw [ih (f s a), hf s a, Bool.not_or, ← Bool.and_assoc]

theorem updatePair_getD (joints : List JointRecord) (hr : List Bool) (i j k : Nat) :
    (updatePair joints hr i j).getD k false = (hr.getD k false && !(fires joints i j k)) := by
  unfold updatePair fires
  cases h1 : ((joints.getD i default).parent == (joints.getD j default).child) with
  | true =>
    rw [if_pos rfl, getD_set_false]
    simp only [Bool.and_true, Bool.not_true, Bool.and_false, Bool.false_and,
      Bool.or_false]
  | false =>
    cases h2 : ((joints.getD j default).parent == (joints.getD i default).child) with
    | true =>
      rw [if_neg Bool.false_ne_true, if_pos rfl, getD_set_false]
      simp only [Bool.and_false, Bool.false_and, Bool.false_or, Bool.not_false,
        Bool.and_true]
    | false =>
      rw [if_neg Bool.false_ne_true, if_neg Bool.false_ne_true]
      simp only [Bool.and_false, Bool.false_and, Bool.false_or, Bool.or_false,
        Bool.not_false, Bool.not_true, Bool.and_true]

theorem computeHasRoot_getD (joints : List JointRecord) (k : Nat) :
    (computeHasRoot joints).getD k false =
      (decide (k < joints.length) &&
        !((List.range joints.length).any (fun i =>
            (List.range' (i + 1) (joints.length - (i + 1))).any
              (fun j => fires joints i j k)))) := by
  unfold computeHasRoot
  rw [foldl_getD_and_not
      (fun hr i =>
        (List.range' (i + 1) (joints.length - (i + 1))).foldl
          (fun hr' j => updatePair joints hr' i j) hr)
      (fun i =>
        (List.range' (i + 1) (joints.length - (i + 1))).any (fun j => fires joints i j k))
      k
      (fun s i =>
        foldl_getD_and_not (fun hr' j => updatePair joints hr' i j)
          (fun j => fires joints i j k) k
          (fun s' j => updatePair_getD joints s' i j k)
          (List.range' (i + 1) (joints.length - (i + 1))) s),
    replicate_getD]

theorem computeHasRoot_eq_decl (joints : List JointRecord) (k : Nat)
    (hk : k < joints.length) :
    ((computeHasRoot joints).getD k false = true) ↔ declHasRoot joints k := by
  rw [computeHasRoot_getD]
  simp only [Bool.and_eq_true, decide_eq_true_eq, Bool.not_eq_true', List.any_eq_false]
  constructor
  · rintro ⟨-, hno⟩
    constructor
    · intro j hjn hkj hpc
      have hmem : j ∈ List.range' (k + 1) (joints.length - (k + 1)) := by
        rw [List.mem_range'_1]
        omega
      apply hno k (List.mem_range.mpr hk)
      rw [List.any_eq_true]
      refine ⟨j, hmem, ?_⟩
      have hb : ((joints.getD k default).parent == (joints.getD j default).child) = true := by
        rw [beq_iff_eq]; exact hpc
      simp only [fires, hb, beq_self_eq_true, Bool.true_and, Bool.and_true, Bool.true_or]
    · intro i hik
      by_contra hcon
      push_neg at hcon
      have hmem : k ∈ List.range' (i + 1) (joints.length - (i + 1)) := by
        rw [List.mem_range'_1]
        omega
      apply hno i (List.mem_range.mpr (by omega))
      rw [List.any_eq_true]
      refine ⟨k, hmem, ?_⟩
      have hb1 : ((joints.getD i default).parent == (joints.getD k default).child) = false := by
        rw [beq_eq_false_iff_ne]; exact hcon.1
      have hb2 : ((joints.getD k default).parent == (joints.getD i default).child) = true := by
        rw [beq_iff_eq]; exact hcon.2
      simp only [fires, hb1, hb2, beq_self_eq_true, Bool.true_and, Bool.and_true,
        Bool.and_false, Bool.not_false, Bool.false_or]
  · rintro ⟨h1, h2⟩
    refine ⟨hk, ?_⟩
    intro i hi hcontra
    rw [List.mem_range] at hi
    rw [List.any_eq_true] at hcontra
    obtain ⟨j, hjmem, hfires⟩ := hcontra
    rw [List.mem_range'_1] at hjmem
    simp only [fires, Bool.or_eq_true, Bool.and_eq_true, beq_iff_eq, Bool.not_eq_true',
      beq_eq_false_iff_ne] at hfires
    rcases hfires with ⟨rfl, hpc⟩ | ⟨⟨rfl, hnpc⟩, hpc2⟩
    · exact h1 j (by omega) (by omega) hpc
    · rcases h2 i (by omega) with h | h
      · exact hnpc h
      · exact h hpc2

theorem find?_congr {α : Type} (p q : α → Bool) :
    ∀ l : List α, (∀ x ∈ l, p x = q x) → l.find? p = l.find? q := by
  intro l
  induction l with
  | nil => intro _; rfl
  | cons a t ih =>
    intro h
    cases hq : q a with
    | true =>
      rw [List.find?_cons_of_pos _ (by rw [h a (List.mem_cons_self a t)]; exact hq),
        List.find?_cons_of_pos _ hq]
    | false =>
      rw [List.find?_cons_of_neg _ (by rw [h a (List.mem_cons_self a t)]; simp [hq]),
        List.find?_cons_of_neg _ (by simp [hq])]
      exact ih (fun x hx => h x (List.mem_cons_of_mem a hx))

/-- C1 counterexample: on the two-joint cycle j1 : A to B, j2 : B to A, both
of the claim's symmetric checks hold for the pair (0, 1), so under the
claim's description both joints are disqualified and no root remains; the
code's scan, whose second check sits in an `elif` branch, disqualifies only
joint 0, keeps joint 1 root-eligible and returns link B as root.  The code
therefore does not implement the claim's description of the scan. -/
theorem C1_root_discovery_cex :
    discoverRootLink [("A", ⟨"A", none, []⟩), ("B", ⟨"B", none, []⟩)]
        [⟨"j1", "revolute", "A", "B", [0, 0, 1]⟩,
         ⟨"j2", "revolute", "B", "A", [0, 0, 1]⟩] =
      .ok ⟨"B", none, []⟩ ∧
    claimDiscoverRootLink [("A", ⟨"A", none, []⟩), ("B", ⟨"B", none, []⟩)]
        [⟨"j1", "revolute", "A", "B", [0, 0, 1]⟩,
         ⟨"j2", "revolute", "B", "A", [0, 0, 1]⟩] =
      .error .noRoot ∧
    computeHasRoot
        [⟨"j1", "revolute", "A", "B", [0, 0, 1]⟩,
         ⟨"j2", "revolute", "B", "A", [0, 0, 1]⟩] = [false, true] ∧
    claimComputeHasRoot
        [⟨"j1", "revolute", "A", "B", [0, 0, 1]⟩,
         ⟨"j2", "revolute", "B", "A", [0, 0, 1]⟩] = [false, false] :=
  ⟨rfl, rfl, rfl, rfl⟩

/-- C1 (amended): for every non-empty joint list, root discovery behaves as
follows: for each pair (i, j) with i before j, if joint i's parent equals
joint j's child then joint i is marked disqualified; otherwise — only when
that first check fails — if joint j's parent equals joint i's child then
joint j is marked disqualified.  After scanning all pairs, the root link is
the parent link of the first joint, in input order, that remains
non-disqualified. -/
theorem C1_root_discovery_amended (lmap : LMap) (joints : List JointRecord)
    (_hne : joints ≠ []) :
    discoverRootLink lmap joints = declDiscoverRootLink lmap joints := by
  have hpred : ∀ k ∈ List.range joints.length,
      ((computeHasRoot joints).getD k false) = (decide (declHasRoot joints k)) := by
    intro k hk
    rw [List.mem_range] at hk
    cases h : (computeHasRoot joints).getD k false with
    | false =>
      symm
      rw [decide_eq_false_iff_not]
      intro hd
      have := (computeHasRoot_eq_decl joints k hk).mpr hd
      rw [h] at this
      exact Bool.false_ne_true this
    | true =>
      symm
      rw [decide_eq_true_eq]
      exact (computeHasRoot_eq_decl joints k hk).mp h
  unfold discoverRootLink declDiscoverRootLink
  rw [find?_congr _ _ (List.range joints.length) hpred]

/-- C1 amended-claim witness: on the chain A to B to C the code's discovery
and the amended declarative discovery agree (both pick link A). -/
theorem C1_root_discovery_witness :
    discoverRootLink [("A", ⟨"A", none, []⟩), ("B", ⟨"B", none, []⟩), ("C", ⟨"C", none, []⟩)]
        [⟨"J1", "revolute", "A", "B", [0, 0, 1]⟩,
         ⟨"J2", "revolute", "B", "C", [0, 0, 1]⟩] =
      declDiscoverRootLink
        [("A", ⟨"A", none, []⟩), ("B", ⟨"B", none, []⟩), ("C", ⟨"C", none, []⟩)]
        [⟨"J1", "revolute", "A", "B", [0, 0, 1]⟩,
         ⟨"J2", "revolute", "B", "C", [0, 0, 1]⟩] :=
  C1_root_discovery_amended
    [("A", ⟨"A", none, []⟩), ("B", ⟨"B", none, []⟩), ("C", ⟨"C", none, []⟩)]
    [⟨"J1", "revolute", "A", "B", [0, 0, 1]⟩,
     ⟨"J2", "revolute", "B", "C", [0, 0, 1]⟩]
    (by simp)

/-! Lookup lemmas for consistent link maps. -/

theorem lookupL_ok_name (lmap : LMap) (key : String) (r : LinkRecord)
    (hcons : lmapConsistent lmap) (h : lookupL lmap key = .ok r) : r.name = key := by
  unfold lookupL at h
  cases hfind : lmap.find? (fun p => p.1 == key) with
  | none => rw [hfind] at h; exact absurd h (by simp)
  | some p =>
    rw [hfind] at h
    obtain rfl : p.2 = r := by simpa using h
    have hmem : p ∈ lmap := List.mem_of_find?_eq_some hfind
    have hkey : (p.1 == key) = true := by simpa using List.find?_some hfind
    rw [beq_iff_eq] at hkey
    rw [hcons p hmem, hkey]

theorem lookupL_name_ok (lmap : LMap) (key : String) (r : LinkRecord)
    (hcons : lmapConsistent lmap) (h : lookupL lmap key = .ok r) :
    lookupL lmap r.name = .ok r := by
  rw [lookupL_ok_name lmap key r hcons h]
  exact h

theorem lookupL_error (lmap : LMap) (key : String) (e : BuildError)
    (h : lookupL lmap key = .error e) : e = .linkNotFound key := by
  unfold lookupL at h
  cases hfind : lmap.find? (fun p => p.1 == key) with
  | none => rw [hfind] at h; simpa using h.symm
  | some p => rw [hfind] at h; exact absurd h (by simp)

/-! Fuel lemmas: the recursion never runs out of fuel when link names admit a
rank strictly decreasing from every joint's parent to its child, and the
fuel exceeds the current link's rank. -/

theorem loop_no_outOfFuel (lmap : LMap) (descend : String → Except BuildError (List Frame))
    (rname : String) :
    ∀ js : List JointRecord,
      (∀ j ∈ js, (j.parent == rname) = true →
        ∀ lc, lookupL lmap j.child = .ok lc → descend lc.name ≠ .error .outOfFuel) →
      build_chain_recurse_loop lmap descend rname js ≠ .error .outOfFuel := by
  intro js
  induction js with
  | nil => intro _; simp [build_chain_recurse_loop]
  | cons j rest ih =>
    intro hdesc
    simp only [build_chain_recurse_loop]
    cases hcond : j.parent == rname with
    | false =>
      simp only [Bool.false_eq_true, if_false]
      exact ih (fun j' hj' => hdesc j' (List.mem_cons_of_mem _ hj'))
    | true =>
      simp only [if_true]
      cases hp : lookupL lmap j.parent with
      | error e =>
        rw [ebind_error]
        have := lookupL_error lmap j.parent e hp
        subst this
        simp
      | ok lp =>
        rw [ebind_ok]
        cases hc : lookupL lmap j.child with
        | error e =>
          rw [ebind_error]
          have := lookupL_error lmap j.child e hc
          subst this
          simp
        | ok lc =>
          rw [ebind_ok]
          cases ht : lookupJointType j.type with
          | error e =>
            rw [ebind_error]
            have : e = .jointTypeNotFound j.type := by
              unfold lookupJointType at ht
              cases hfind : JOINT_TYPE_MAP.find? (fun p => p.1 == j.type) with
              | none => rw [hfind] at ht; simpa using ht.symm
              | some p => rw [hfind] at ht; exact absurd ht (by simp)
            subst this
            simp
          | ok jt =>
            rw [ebind_ok]
            cases hg : descend lc.name with
            | error e =>
              rw [ebind_error]
              intro hcontra
              obtain rfl : e = BuildError.outOfFuel := by simpa using hcontra
              exact hdesc j (List.mem_cons_self _ _) hcond lc hc hg
            | ok grand =>
              rw [ebind_ok]
              cases hrest : build_chain_recurse_loop lmap descend rname rest with
              | error e =>
                rw [ebind_error]
                intro hcontra
                obtain rfl : e = BuildError.outOfFuel := by simpa using hcontra
                exact ih (fun j' hj' => hdesc j' (List.mem_cons_of_mem _ hj')) hrest
              | ok children =>
                rw [ebind_ok]
                simp

theorem recurse_no_outOfFuel (lmap : LMap) (joints : List JointRecord)
    (rank : String → Nat) (hcons : lmapConsistent lmap)
    (hrank : ∀ j ∈ joints, rank j.child < rank j.parent) :
    ∀ (fuel : Nat) (L : String), rank L < fuel →
      build_chain_recurse lmap joints fuel L ≠ .error .outOfFuel := by
  intro fuel
  induction fuel with
  | zero => intro L h; omega
  | succ f ih =>
    intro L hL
    rw [build_chain_recurse]
    apply loop_no_outOfFuel
    intro j hj hmatch lc hc
    have hname : lc.name = j.child := lookupL_ok_name lmap j.child lc hcons hc
    have hpareq : j.parent = L := by rwa [beq_iff_eq] at hmatch
    apply ih
    have hlt := hrank j hj
    rw [hpareq] at hlt
    rw [hname]
    omega

/-- The one-joint self-loop used to exhibit non-termination: a single link A
and a single joint whose parent and child are both A. -/
def cycLmap : LMap := [("A", ⟨"A", none, []⟩)]

/-- The self-referential joint list of the non-termination example. -/
def cycJoints : List JointRecord := [⟨"jA", "revolute", "A", "A", [0, 0, 1]⟩]

theorem cyc_diverges : ∀ fuel : Nat,
    build_chain_recurse cycLmap cycJoints fuel "A" = .error .outOfFuel := by
  intro fuel
  induction fuel with
  | zero => rfl
  | succ f ih =>
    have hloop : ∀ d : String → Except BuildError (List Frame),
        build_chain_recurse_loop cycLmap d "A" cycJoints =
          (d "A" >>= fun grandchildren =>
            Except.ok [Frame.mk ("A" ++ "_frame")
              ⟨some "jA",
                Transform.comp (Transform.inv (convert_transform none))
                  (convert_transform none),
                some "revolute", some [0, 0, 1]⟩
              ⟨"A", Transform.ident, convert_visuals []⟩ grandchildren]) :=
      fun d => rfl
    rw [build_chain_recurse, hloop, ih, ebind_error]

/-- C4: with fuel as the embedding of general recursion (a Python run fails
to terminate exactly when every fuel yields the `outOfFuel` marker), the
recursive chain building terminates on every well-formed tree — witnessed by
a rank on link names that strictly decreases from each joint's parent to its
child, the standard certificate that the parent-to-child edge relation is
acyclic — whereas on a self-referential joint set (a joint whose parent
equals its child, reached from its own link) it does not terminate. -/
theorem C4_termination :
    (∀ (lmap : LMap) (joints : List JointRecord) (rank : String → Nat),
      lmapConsistent lmap →
      (∀ j ∈ joints, rank j.child < rank j.parent) →
      ∀ (fuel : Nat) (L : String), rank L < fuel →
        build_chain_recurse lmap joints fuel L ≠ .error .outOfFuel) ∧
    (∀ fuel : Nat,
      build_chain_recurse cycLmap cycJoints fuel "A" = .error .outOfFuel) :=
  ⟨fun lmap joints rank hcons hrank fuel L hL =>
      recurse_no_outOfFuel lmap joints rank hcons hrank fuel L hL,
    cyc_diverges⟩

/-- C4 witness: the chain A to B with rank B = 0, A = 1 terminates within
fuel 2; the self-loop is out of fuel at fuel 3. -/
theorem C4_termination_witness :
    build_chain_recurse [("A", ⟨"A", none, []⟩), ("B", ⟨"B", none, []⟩)]
        [⟨"j1", "revolute", "A", "B", [0, 0, 1]⟩] 2 "A" ≠ .error .outOfFuel ∧
    build_chain_recurse cycLmap cycJoints 3 "A" = .error .outOfFuel := by
  constructor
  · exact C4_termination.1 [("A", ⟨"A", none, []⟩), ("B", ⟨"B", none, []⟩)]
      [⟨"j1", "revolute", "A", "B", [0, 0, 1]⟩]
      (fun s => if s = "A" then 1 else 0)
      (by
        intro p hp
        simp only [List.mem_cons, List.not_mem_nil, or_false] at hp
        rcases hp with rfl | rfl <;> rfl)
      (by
        intro j hj
        simp only [List.mem_cons, List.not_mem_nil, or_false] at hj
        subst hj
        decide)
      2 "A" (by decide)
  · exact C4_termination.2 3

/-- A link-lookup failure inside one level of the joint loop, when the
current link name itself resolves in the map, can only come from a child
lookup (directly, or from a deeper level through `descend`). -/
theorem loop_error_is_child (lmap : LMap) (alljoints : List JointRecord)
    (descend : String → Except BuildError (List Frame)) (rname : String)
    (rrec : LinkRecord) (hname : lookupL lmap rname = .ok rrec)
    (hdesc : ∀ (c : String) (rc : LinkRecord), lookupL lmap c = .ok rc →
      ∀ key, descend rc.name = .error (.linkNotFound key) →
        ∃ j ∈ alljoints, j.child = key ∧
          lookupL lmap j.child = .error (.linkNotFound j.child)) :
    ∀ js : List JointRecord, (∀ j ∈ js, j ∈ alljoints) →
      ∀ key, build_chain_recurse_loop lmap descend rname js = .error (.linkNotFound key) →
        ∃ j ∈ alljoints, j.child = key ∧
          lookupL lmap j.child = .error (.linkNotFound j.child) := by
  intro js
  induction js with
  | nil =>
    intro _ key h
    exact absurd h (by simp [build_chain_recurse_loop])
  | cons j rest ih =>
    intro hsub key h
    simp only [build_chain_recurse_loop] at h
    cases hcond : j.parent == rname with
    | false =>
      rw [hcond] at h
      simp only [Bool.false_eq_true, if_false] at h
      exact ih (fun j' hj' => hsub j' (List.mem_cons_of_mem _ hj')) key h
    | true =>
      rw [hcond] at h
      simp only [if_true] at h
      have hpareq : j.parent = rname := by rwa [beq_iff_eq] at hcond
      rw [hpareq, hname, ebind_ok] at h
      cases hc : lookupL lmap j.child with
      | error e =>
        rw [hc, ebind_error] at h
        obtain rfl : e = .linkNotFound key := by simpa using h
        have := lookupL_error lmap j.child _ hc
        obtain rfl : key = j.child := by simpa using this
        exact ⟨j, hsub j (List.mem_cons_self _ _), rfl, hc⟩
      | ok lc =>
        rw [hc, ebind_ok] at h
        cases ht : lookupJointType j.type with
        | error e =>
          rw [ht, ebind_error] at h
          have : e = .jointTypeNotFound j.type := by
            unfold lookupJointType at ht
            cases hfind : JOINT_TYPE_MAP.find? (fun p => p.1 == j.type) with
            | none => rw [hfind] at ht; simpa using ht.symm
            | some p => rw [hfind] at ht; exact absurd ht (by simp)
          subst this
          exact absurd h (by simp)
        | ok jt =>
          rw [ht, ebind_ok] at h
          cases hg : descend lc.name with
          | error e =>
            rw [hg, ebind_error] at h
            obtain rfl : e = .linkNotFound key := by simpa using h
            exact hdesc j.child lc hc key hg
          | ok grand =>
            rw [hg, ebind_ok] at h
            cases hrest : build_chain_recurse_loop lmap descend rname rest with
            | error e =>
              rw [hrest, ebind_error] at h
              obtain rfl : e = .linkNotFound key := by simpa using h
              exact ih (fun j' hj' => hsub j' (List.mem_cons_of_mem _ hj')) key hrest
            | ok children =>
              rw [hrest, ebind_ok] at h
              exact absurd h (by simp)

/-- C10: under a consistent link map, whenever the current frame's link name
was itself obtained from the link map, any lookup failure inside the
recursive expansion names the child of some joint of the list, a child that
is indeed absent from the map — a missing parent can never be the cause,
since every matched joint's parent equals the current frame's link name. -/
theorem C10_parent_lookup_safe (lmap : LMap) (joints : List JointRecord)
    (hcons : lmapConsistent lmap) :
    ∀ (fuel : Nat) (L : String) (r : LinkRecord), lookupL lmap L = .ok r →
      ∀ key, build_chain_recurse lmap joints fuel L = .error (.linkNotFound key) →
        ∃ j ∈ joints, j.child = key ∧
          lookupL lmap j.child = .error (.linkNotFound j.child) := by
  intro fuel
  induction fuel with
  | zero =>
    intro L r _ key h
    rw [build_chain_recurse] at h
    exact absurd h (by simp)
  | succ f ih =>
    intro L r hok key h
    rw [build_chain_recurse] at h
    exact loop_error_is_child lmap joints
      (build_chain_recurse lmap joints f) L r hok
      (fun c rc hc key' hg =>
        ih rc.name rc (lookupL_name_ok lmap c rc hcons hc) key' hg)
      joints (fun j hj => hj) key h

/-! Counting lemmas for C3. -/

theorem card_list_sum {α β : Type} (l : List α) (g : α → Multiset β) :
    ((l.map g).sum).card = (l.map fun x => (g x).card).sum := by
  induction l with
  | nil => simp
  | cons a t ih => simp [ih]

theorem sum_map_one_add {α : Type} (l : List α) (f : α → Nat) :
    (l.map (fun x => 1 + f x)).sum = l.length + (l.map f).sum := by
  induction l with
  | nil => simp
  | cons a t ih => simp [ih]; omega

/-- Success and size of one level of the joint loop: when every matched
joint resolves its lookups and its descent succeeds with a known forest
size, the loop succeeds and the sizes add up over the matched joints. -/
theorem loop_sizes (lmap : LMap) (descend : String → Except BuildError (List Frame))
    (rname : String) (gsz : JointRecord → Nat) :
    ∀ js : List JointRecord,
      (∀ j ∈ js, (j.parent == rname) = true →
        (∃ lp, lookupL lmap j.parent = .ok lp) ∧
        (∃ jt, lookupJointType j.type = .ok jt) ∧
        ∃ lc, lookupL lmap j.child = .ok lc ∧
          ∃ grand, descend lc.name = .ok grand ∧ forestSize grand = gsz j) →
      ∃ frames, build_chain_recurse_loop lmap descend rname js = .ok frames ∧
        forestSize frames =
          ((js.filter (fun j => j.parent == rname)).map (fun j => 1 + gsz j)).sum := by
  intro js
  induction js with
  | nil => intro _; exact ⟨[], rfl, by simp [forestSize]⟩
  | cons j rest ih =>
    intro hyp
    cases hcond : j.parent == rname with
    | false =>
      obtain ⟨frames', hrest, hsz'⟩ := ih (fun j' hj' => hyp j' (List.mem_cons_of_mem _ hj'))
      refine ⟨frames', ?_, ?_⟩
      · simp only [build_chain_recurse_loop, hcond, Bool.false_eq_true, if_false]
        exact hrest
      · rw [List.filter_cons, if_neg (by simp [hcond])]
        exact hsz'
    | true =>
      obtain ⟨⟨lp, hp⟩, ⟨jt, ht⟩, lc, hc, grand, hg, hszg⟩ :=
        hyp j (List.mem_cons_self _ _) hcond
      obtain ⟨frames', hrest, hsz'⟩ := ih (fun j' hj' => hyp j' (List.mem_cons_of_mem _ hj'))
      refine ⟨Frame.mk (j.child ++ "_frame")
          ⟨some j.name,
            Transform.comp (Transform.inv (convert_transform lp.pose))
              (convert_transform lc.pose),
            some jt, some j.axis⟩
          ⟨lc.name, Transform.ident, convert_visuals lc.visuals⟩ grand :: frames', ?_, ?_⟩
      · simp only [build_chain_recurse_loop, hcond, if_true]
        rw [hp, ebind_ok, hc, ebind_ok, ht, ebind_ok, hg, ebind_ok, hrest, ebind_ok]
      · rw [List.filter_cons, if_pos hcond]
        simp only [forestSize, frameSize, List.map_cons, List.sum_cons]
        rw [hszg, hsz']

/-- Main induction for C3: when the joint multiset is consumed as a tree
from link `L`, every child link and joint type resolves, the map is
consistent and `L` itself resolves, the recursion from `L` succeeds for
every fuel above the rank of `L` and produces exactly `S.card` frames. -/
theorem consumes_recurse_size (lmap : LMap) (joints : List JointRecord)
    (rank : String → Nat) (hcons : lmapConsistent lmap)
    (hrank : ∀ j ∈ joints, rank j.child < rank j.parent)
    (hchild : ∀ j ∈ joints, ∃ lc, lookupL lmap j.child = .ok lc)
    (htype : ∀ j ∈ joints, ∃ jt, lookupJointType j.type = .ok jt) :
    ∀ (L : String) (S : Multiset JointRecord), Consumes joints L S →
      (∃ r, lookupL lmap L = .ok r) →
      ∀ fuel, rank L < fuel →
        ∃ frames, build_chain_recurse lmap joints fuel L = .ok frames ∧
          forestSize frames = S.card := by
  intro L S hc
  induction hc with
  | mk L g hkids ih =>
    intro hL fuel hfuel
    obtain ⟨r, hr⟩ := hL
    cases fuel with
    | zero => omega
    | succ f =>
      rw [build_chain_recurse]
      obtain ⟨frames, hloop, hsize⟩ :=
        loop_sizes lmap (build_chain_recurse lmap joints f) L (fun j => (g j).card) joints
          (by
            intro j hj hmatch
            have hpareq : j.parent = L := by rwa [beq_iff_eq] at hmatch
            refine ⟨⟨r, by rwa [hpareq]⟩, htype j hj, ?_⟩
            obtain ⟨lc, hc'⟩ := hchild j hj
            refine ⟨lc, hc', ?_⟩
            have hmem : j ∈ joints.filter (fun j => j.parent == L) :=
              List.mem_filter.mpr ⟨hj, hmatch⟩
            have hrankj : rank j.child < f := by
              have hlt := hrank j hj
              rw [hpareq] at hlt
              omega
            obtain ⟨grand, hgr, hszg⟩ := ih j hmem ⟨lc, hc'⟩ f hrankj
            rw [lookupL_ok_name lmap j.child lc hcons hc']
            exact ⟨grand, hgr, hszg⟩)
      refine ⟨frames, hloop, ?_⟩
      rw [hsize, Multiset.card_add, Multiset.coe_card, card_list_sum, sum_map_one_add]

/-- C3: for every valid single-rooted joint set — acyclicity witnessed by a
rank on link names, all referenced links and joint types resolving, a
consistent link map, root discovery succeeding, and the full joint multiset
consumed as a tree from the discovered root link — the build produces
exactly one root frame, named by the discovered root link's name suffixed
with "_frame", and the tree reachable from it contains exactly
`joints.length` non-root frames. -/
theorem C3_tree_size (lmap : LMap) (joints : List JointRecord) (rank : String → Nat)
    (rl : LinkRecord) (fuel : Nat)
    (hcons : lmapConsistent lmap)
    (hrank : ∀ j ∈ joints, rank j.child < rank j.parent)
    (hchild : ∀ j ∈ joints, ∃ lc, lookupL lmap j.child = .ok lc)
    (htype : ∀ j ∈ joints, ∃ jt, lookupJointType j.type = .ok jt)
    (hdisc : discoverRootLink lmap joints = .ok rl)
    (htree : Consumes joints rl.name (↑joints : Multiset JointRecord))
    (hfuel : rank rl.name < fuel) :
    ∃ c : Chain, build_chain ⟨lmap, joints⟩ fuel = .ok c ∧
      c.root_frame.name = rl.name ++ "_frame" ∧
      forestSize c.root_frame.children = joints.length := by
  have hrl : lookupL lmap rl.name = .ok rl := by
    unfold discoverRootLink at hdisc
    cases hfind : (List.range joints.length).find?
        (fun i => (computeHasRoot joints).getD i false) with
    | none => rw [hfind] at hdisc; exact absurd hdisc (by simp)
    | some i =>
      rw [hfind] at hdisc
      exact lookupL_name_ok lmap _ rl hcons hdisc
  obtain ⟨frames, hrec, hsz⟩ :=
    consumes_recurse_size lmap joints rank hcons hrank hchild htype rl.name
      (↑joints) htree ⟨rl, hrl⟩ fuel hfuel
  refine ⟨⟨Frame.mk (rl.name ++ "_frame")
      ⟨none, convert_transform rl.pose, none, none⟩
      ⟨rl.name, Transform.ident, convert_visuals rl.visuals⟩ frames⟩, ?_, rfl, ?_⟩
  · show (discoverRootLink lmap joints >>= fun root_link =>
        (build_chain_recurse lmap joints fuel root_link.name >>= fun children =>
          Except.ok (Chain.mk (Frame.mk (root_link.name ++ "_frame")
            (Joint.mk none (convert_transform root_link.pose) none none)
            (Link.mk root_link.name Transform.ident (convert_visuals root_link.visuals))
            children)))) =
      Except.ok (Chain.mk (Frame.mk (rl.name ++ "_frame")
        (Joint.mk none (convert_transform rl.pose) none none)
        (Link.mk rl.name Transform.ident (convert_visuals rl.visuals)) frames))
    rw [hdisc, ebind_ok, hrec, ebind_ok]
  · show forestSize frames = joints.length
    rw [hsz, Multiset.coe_card]

/-- C3 witness: the two-joint chain A to B to C, with rank A = 2, B = 1,
C = 0 and the explicit tree-consumption derivation. -/
theorem C3_tree_size_witness :
    ∃ c : Chain,
      build_chain ⟨[("A", ⟨"A", none, []⟩), ("B", ⟨"B", none, []⟩), ("C", ⟨"C", none, []⟩)],
          [⟨"J1", "revolute", "A", "B", [0, 0, 1]⟩,
           ⟨"J2", "revolute", "B", "C", [0, 0, 1]⟩]⟩ 3 = .ok c ∧
      c.root_frame.name = (⟨"A", none, []⟩ : LinkRecord).name ++ "_frame" ∧
      forestSize c.root_frame.children =
        ([⟨"J1", "revolute", "A", "B", [0, 0, 1]⟩,
          ⟨"J2", "revolute", "B", "C", [0, 0, 1]⟩] : List JointRecord).length := by
  have hC : Consumes
      [⟨"J1", "revolute", "A", "B", [0, 0, 1]⟩, ⟨"J2", "revolute", "B", "C", [0, 0, 1]⟩]
      "C" 0 :=
    Consumes.mk "C" (fun _ => 0) (by
      intro j hj
      have hj' : j ∈ ([] : List JointRecord) := hj
      exact absurd hj' (List.not_mem_nil j))
  have hB : Consumes
      [⟨"J1", "revolute", "A", "B", [0, 0, 1]⟩, ⟨"J2", "revolute", "B", "C", [0, 0, 1]⟩]
      "B" {⟨"J2", "revolute", "B", "C", [0, 0, 1]⟩} :=
    Consumes.mk "B" (fun _ => 0) (by
      intro j hj
      have hj' : j ∈ [(⟨"J2", "revolute", "B", "C", [0, 0, 1]⟩ : JointRecord)] := hj
      rcases List.mem_singleton.mp hj' with rfl
      exact hC)
  have hA0 : Consumes
      [⟨"J1", "revolute", "A", "B", [0, 0, 1]⟩, ⟨"J2", "revolute", "B", "C", [0, 0, 1]⟩]
      "A"
      (↑(([⟨"J1", "revolute", "A", "B", [0, 0, 1]⟩,
            ⟨"J2", "revolute", "B", "C", [0, 0, 1]⟩] : List JointRecord).filter
          (fun j => j.parent == "A")) +
        ((([⟨"J1", "revolute", "A", "B", [0, 0, 1]⟩,
            ⟨"J2", "revolute", "B", "C", [0, 0, 1]⟩] : List JointRecord).filter
          (fun j => j.parent == "A")).map
            (fun _ => ({⟨"J2", "revolute", "B", "C", [0, 0, 1]⟩} :
              Multiset JointRecord))).sum) :=
    Consumes.mk "A" (fun _ => {⟨"J2", "revolute", "B", "C", [0, 0, 1]⟩}) (by
      intro j hj
      have hj' : j ∈ [(⟨"J1", "revolute", "A", "B", [0, 0, 1]⟩ : JointRecord)] := hj
      rcases List.mem_singleton.mp hj' with rfl
      exact hB)
  have heqA :
      (↑(([⟨"J1", "revolute", "A", "B", [0, 0, 1]⟩,
            ⟨"J2", "revolute", "B", "C", [0, 0, 1]⟩] : List JointRecord).filter
          (fun j => j.parent == "A")) +
        ((([⟨"J1", "revolute", "A", "B", [0, 0, 1]⟩,
            ⟨"J2", "revolute", "B", "C", [0, 0, 1]⟩] : List JointRecord).filter
          (fun j => j.parent == "A")).map
            (fun _ => ({⟨"J2", "revolute", "B", "C", [0, 0, 1]⟩} :
              Multiset JointRecord))).sum) =
      (↑[(⟨"J1", "revolute", "A", "B", [0, 0, 1]⟩ : JointRecord),
          ⟨"J2", "revolute", "B", "C", [0, 0, 1]⟩] : Multiset JointRecord) := by
    decide
  have hA := heqA ▸ hA0
  apply C3_tree_size _ _ (fun s => if s = "A" then 2 else if s = "B" then 1 else 0)
    ⟨"A", none, []⟩ 3
  · intro p hp
    simp only [List.mem_cons, List.not_mem_nil, or_false] at hp
    rcases hp with rfl | rfl | rfl <;> rfl
  · intro j hj
    simp only [List.mem_cons, List.not_mem_nil, or_false] at hj
    rcases hj with rfl | rfl <;> decide
  · intro j hj
    simp only [List.mem_cons, List.not_mem_nil, or_false] at hj
    rcases hj with rfl | rfl
    · exact ⟨⟨"B", none, []⟩, rfl⟩
    · exact ⟨⟨"C", none, []⟩, rfl⟩
  · intro j hj
    simp only [List.mem_cons, List.not_mem_nil, or_false] at hj
    rcases hj with rfl | rfl <;> exact ⟨"revolute", rfl⟩
  · rfl
  · exact hA
  · decide

/-- C10 witness: link map containing only A, one joint from A to the absent
link B; the recursion's failure names B, the missing child. -/
theorem C10_parent_lookup_safe_witness :
    ∃ j ∈ [(⟨"j1", "revolute", "A", "B", [0, 0, 1]⟩ : JointRecord)], j.child = "B" ∧
      lookupL [("A", ⟨"A", none, []⟩)] j.child = .error (.linkNotFound j.child) :=
  C10_parent_lookup_safe [("A", ⟨"A", none, []⟩)]
    [⟨"j1", "revolute", "A", "B", [0, 0, 1]⟩]
    (by
      intro p hp
      simp only [List.mem_cons, List.not_mem_nil, or_false] at hp
      subst hp
      rfl)
    2 "A" ⟨"A", none, []⟩ rfl "B" rfl

end kinpy
